import Mathlib

/-!
Verification of the `SearchableMultiSelect` component of the aaa-dashboard
repository (src/client/src/SearchableMultiselect.jsx) against its
natural-language specification.

The component is shallowly embedded: each handler/effect of the JSX source is
translated into a pure Lean function over explicit state; JSON payloads are an
inductive type; JavaScript arrays are Lean lists of strings.
-/

namespace SMS

/-! ### String helpers (JavaScript semantics) -/

/-- JS `s.includes(q)` on the character lists: `q` occurs as a contiguous
substring of `s`.  `includes("")` is `true`, as in JS. -/
def strIncludes (s q : String) : Bool :=
  go s.toList q.toList
where
  go : List Char → List Char → Bool
    | l, qcs =>
      qcs.isPrefixOf l ||
        match l with
        | [] => false
        | _ :: t => go t qcs

/-- JS `s.toLowerCase()`: lowercase each character.  (Modelled character-wise
so the kernel can evaluate it; option labels are ordinary ASCII text.) -/
def jsToLower (s : String) : String :=
  ⟨s.data.map Char.toLower⟩

/-- JS `s.trim()`: strip leading and trailing whitespace. -/
def jsTrim (s : String) : String :=
  ⟨((s.data.dropWhile Char.isWhitespace).reverse.dropWhile
      Char.isWhitespace).reverse⟩

/-- First-occurrence deduplication with explicit fuel (any fuel at least the
list length gives the same answer; the fuel keeps the recursion structural so
the kernel can evaluate it). -/
def dedupFirstFuel : Nat → List String → List String
  | _, [] => []
  | 0, _ :: _ => []
  | n + 1, x :: xs => x :: dedupFirstFuel n (xs.filter (· ≠ x))

/-- The semantics of `Array.from(new Set(xs))` in JS — the first occurrence
of each element is kept, in encounter order. -/
def dedupFirst (l : List String) : List String :=
  dedupFirstFuel l.length l

/-! ### SelectionModel: `toggleOption`, `selectAll`, `clearAll`
(SearchableMultiselect.jsx lines 223-242) -/

/-- `toggleOption` from the source: in multi-select mode, remove `opt` if
present (`selected.filter((s) => s !== opt)`) else append
(`[...selected, opt]`); in single-select mode, clicking the sole selected
value clears, otherwise the selection becomes `[opt]`. -/
def toggleOption (multiSelect : Bool) (selected : List String) (opt : String) :
    List String :=
  if multiSelect then
    if selected.contains opt then selected.filter (· ≠ opt)
    else selected ++ [opt]
  else
    if selected.length = 1 ∧ selected.head? = some opt then []
    else [opt]

/-- `selectAll` from the source:
`onChange(Array.from(new Set([...selected, ...filtered])))`. -/
def selectAll (selected filtered : List String) : List String :=
  dedupFirst (selected ++ filtered)

/-- `clearAll` from the source: `onChange([])`. -/
def clearAll : List String := []

/-- The three selection-changing actions the panel can dispatch. -/
inductive PanelAction where
  | toggleAction (opt : String)
  | selectAllAction
  | clearAction

/-- The selection the panel passes to `onChange` for each action, as a
function of the `multiSelect` prop: `toggleOption` receives the mode, while
the `selectAll` and `clearAll` closures do not consult it. -/
def panelEmit (multiSelect : Bool) (selected filtered : List String) :
    PanelAction → List String
  | .toggleAction opt => toggleOption multiSelect selected opt
  | .selectAllAction => selectAll selected filtered
  | .clearAction => clearAll

/-! ### SearchFilter (the `filtered` memo, lines 208-214) -/

/-- The `filtered` memo from the source:
`const q = query.trim().toLowerCase(); if (!q) return effectiveOptions;
return effectiveOptions.filter((o) => String(o).toLowerCase().includes(q));` -/
def filteredList (effectiveOptions : List String) (query : String) :
    List String :=
  let q := jsToLower (jsTrim query)
  if q = "" then effectiveOptions
  else effectiveOptions.filter (fun o => strIncludes (jsToLower o) q)

/-- The SearchFilter contract as the spec words it (§4.3 / C5): options whose
lowercase form contains the lowercase query; the empty query returns the full
list.  (No trimming — the spec does not mention it.) -/
def specFilteredList (effectiveOptions : List String) (query : String) :
    List String :=
  if query = "" then effectiveOptions
  else
    effectiveOptions.filter (fun o => strIncludes (jsToLower o) (jsToLower query))

/-! ### JSON payloads and the RemoteFetcher normalization
(the `load` closure, lines 90-160) -/

/-- JSON values as delivered by `res.json()`.  Numbers are modelled as
integers (no claim depends on float formatting). -/
inductive Json where
  | null : Json
  | bool (b : Bool) : Json
  | num (n : Int) : Json
  | str (s : String) : Json
  | arr (elems : List Json) : Json
  | obj (fields : List (String × Json)) : Json

/-- JS `typeof x === "object"`: true for objects, arrays and `null`. -/
def Json.typeofObject : Json → Bool
  | .null => true
  | .arr _ => true
  | .obj _ => true
  | _ => false

/-- Discriminator for JS `null` (the one value on which a property access
throws rather than yielding `undefined`). -/
def Json.isNull : Json → Bool
  | .null => true
  | _ => false

/-- Property access `item[name]` on an object: first binding wins;
`none` models JS `undefined` (absent property, or access on a primitive). -/
def Json.getField : Json → String → Option Json
  | .obj fields, name => (fields.find? (fun kv => kv.fst = name)).map Prod.snd
  | _, _ => none

mutual
/-- JS `String(x)` coercion. -/
def jsToString : Json → String
  | .null => "null"
  | .bool b => if b then "true" else "false"
  | .num n => toString n
  | .str s => s
  | .arr xs => String.intercalate "," (jsToStringElems xs)
  | .obj _ => "[object Object]"

/-- `Array.prototype.toString` stringifies elements, rendering `null` as the
empty string. -/
def jsToStringElems : List Json → List String
  | [] => []
  | .null :: xs => "" :: jsToStringElems xs
  | x :: xs => jsToString x :: jsToStringElems xs
end

/-- The `??` chain step: a field access whose result is JS `null` is skipped
just like an absent field (`a ?? b` takes `b` when `a` is null/undefined). -/
def Json.getFieldNN (j : Json) (name : String) : Option Json :=
  match j.getField name with
  | some .null => none
  | r => r

/-- `buildLabel` from the source (lines 103-120) on its non-throwing inputs:
keyed on the `label` prop, it tries a chain of field names with `??` and
stringifies the hit; any other label yields `null`.  In JS, calling it on
`null` itself throws a TypeError; that path is modelled by `buildLabelE`
below, which agrees with this total version on every non-null item
(`buildLabelE_of_not_null`). -/
def buildLabel (label : String) (item : Json) : Option String :=
  if label = "Tickers" then
    (((item.getFieldNN "Symbol").or ((item.getFieldNN "symbol").or
        ((item.getFieldNN "Value").or (item.getFieldNN "value")))) ).map jsToString
  else if label = "Industry" then
    ((item.getFieldNN "Industry").or (item.getFieldNN "industry")).map jsToString
  else if label = "Sector" then
    ((item.getFieldNN "Sector").or (item.getFieldNN "sector")).map jsToString
  else
    none

/-- The array-shape branch of `load` (lines 122-129 and 131-137) on its
non-throwing inputs: if the first element is `typeof "object"`, map
`buildLabel` and `.filter(Boolean)` (dropping `null` and the falsy empty
string); otherwise stringify every element.  The throwing executions (a JS
`null` element in the object branch) are modelled by `extractFromArrayE`. -/
def extractFromArray (label : String) (data : List Json) : List String :=
  match data with
  | [] => data.map jsToString
  | d0 :: _ =>
    if d0.typeofObject then
      (data.filterMap (buildLabel label)).filter (· ≠ "")
    else
      data.map jsToString

/-- Lexicographic `≤` on character lists (the order underlying JS string
comparison). -/
def lexLeChars : List Char → List Char → Bool
  | [], _ => true
  | _ :: _, [] => false
  | a :: as, b :: bs => if a = b then lexLeChars as bs else decide (a < b)

/-- Case-insensitive comparison used to model
`a.localeCompare(b, undefined, { sensitivity: "base" }) <= 0`
(for ASCII option labels this is lexicographic order on the lowercased
strings). -/
def ciLE (a b : String) : Prop :=
  lexLeChars (jsToLower a).data (jsToLower b).data = true

instance : DecidableRel ciLE := fun a b => by
  unfold ciLE; infer_instance

theorem lexLeChars_total : ∀ as bs,
    lexLeChars as bs = true ∨ lexLeChars bs as = true
  | [], _ => by left; rfl
  | _ :: _, [] => by right; rfl
  | a :: as, b :: bs => by
    by_cases hab : a = b
    · subst hab
      simpa [lexLeChars] using lexLeChars_total as bs
    · rcases lt_trichotomy a b with h | h | h
      · left; simp [lexLeChars, hab, h]
      · exact absurd h hab
      · right; simp [lexLeChars, Ne.symm hab, h]

theorem lexLeChars_trans : ∀ as bs cs,
    lexLeChars as bs = true → lexLeChars bs cs = true →
      lexLeChars as cs = true
  | [], _, _, _, _ => rfl
  | _ :: _, [], _, h1, _ => by simp [lexLeChars] at h1
  | _ :: _, _ :: _, [], _, h2 => by simp [lexLeChars] at h2
  | a :: as, b :: bs, c :: cs, h1, h2 => by
    by_cases hab : a = b
    · subst hab
      by_cases hbc : a = c
      · subst hbc
        simp only [lexLeChars, if_pos rfl] at h1 h2 ⊢
        exact lexLeChars_trans as bs cs h1 h2
      · simpa [lexLeChars, hbc] using (by simpa [lexLeChars, hbc] using h2)
    · simp only [lexLeChars, if_neg hab] at h1
      by_cases hbc : b = c
      · subst hbc
        simp [lexLeChars, hab, of_decide_eq_true h1]
      · simp only [lexLeChars, if_neg hbc] at h2
        have hac : a < c :=
          lt_trans (of_decide_eq_true h1) (of_decide_eq_true h2)
        have : a ≠ c := ne_of_lt hac
        simp [lexLeChars, this, hac]

instance : IsTotal String ciLE :=
  ⟨fun a b => lexLeChars_total (jsToLower a).data (jsToLower b).data⟩

instance : IsTrans String ciLE :=
  ⟨fun _ _ _ h h' => lexLeChars_trans _ _ _ h h'⟩

/-- The whole normalization performed by `load` on a decoded payload
(lines 101-146), on its non-throwing inputs: shape dispatch (array /
object-with-`symbols`-array / anything else), then
`Array.from(new Set(...))`, then the case-insensitive sort.  The throwing
executions are modelled by `normalizeRemoteE`, which agrees with this total
version wherever it succeeds. -/
def normalizeRemote (label : String) (data : Json) : List String :=
  let fetchedValues :=
    match data with
    | .arr xs => extractFromArray label xs
    | _ =>
      match data.getField "symbols" with
      | some (.arr ys) => extractFromArray label ys
      | _ => []
  (dedupFirst fetchedValues).insertionSort ciLE

/-- The C4 extraction rule as the spec words it, for the array-of-objects
shape: take each element's field, trying the primary then the lowercase-alias
name, and drop only the elements *lacking* the field. -/
def specExtractObjects (primary lowerAlias : String) (data : List Json) :
    List String :=
  data.filterMap (fun item =>
    ((item.getFieldNN primary).or (item.getFieldNN lowerAlias)).map jsToString)

/-! ### OptionSourceResolver: the two `useEffect`s over
`values` / `options` / `dataUrl` (lines 59-69 and 82-167) -/

/-- The configuring props of the component relevant to option sourcing. -/
structure Props where
  values : Option (List String)
  options : List String
  dataUrl : Option String
  label : String

/-- The option-related component state: `effectiveOptions`, `loading`,
`loadError`. -/
structure OptState where
  effectiveOptions : List String
  loading : Bool
  loadError : Option String
deriving DecidableEq

/-- The guard `Array.isArray(values) && values.length > 0` from both
effects. -/
def valuesNonempty (p : Props) : Bool :=
  match p.values with
  | some v => v.length > 0
  | none => false

/-- The sync effect (lines 59-69): a non-empty `values` wins; else with no
`dataUrl` the `options` prop is installed; else the effect leaves
`effectiveOptions` alone (the fetch effect owns it). -/
def syncEffect (p : Props) (s : OptState) : OptState :=
  if valuesNonempty p then
    { s with effectiveOptions := p.values.getD [] }
  else if p.dataUrl = none then
    { s with effectiveOptions := p.options }
  else s

/-- The guard of the fetch effect (line 84): a fetch is started unless there
is no `dataUrl` or a non-empty `values` list is supplied. -/
def fetchStarts (p : Props) : Bool :=
  p.dataUrl.isSome && !valuesNonempty p

/-- Entering the fetch effect body (lines 87-88):
`setLoading(true); setLoadError(null)`. -/
def startFetch (s : OptState) : OptState :=
  { s with loading := true, loadError := none }

/-- Outcome of an HTTP fetch: a decoded JSON body, or a thrown error
(non-ok status / network / JSON failure). -/
inductive FetchResult where
  | success (data : Json)
  | failure (msg : String)

/-- Committing a resolved fetch (lines 148-158): success installs the
normalized list and clears loading; the catch path records the error message
and empties the options. -/
def applyFetchResult (label : String) (s : OptState) :
    FetchResult → OptState
  | .success data =>
    { s with effectiveOptions := normalizeRemote label data, loading := false }
  | .failure msg =>
    { s with loadError := some msg, effectiveOptions := [], loading := false }

/-- One full effect pass after the props change: the sync effect runs, and
the fetch effect either starts a fetch or does nothing. -/
def configStep (p : Props) (s : OptState) : OptState :=
  let s1 := syncEffect p s
  if fetchStarts p then startFetch s1 else s1

/-! ### KeyboardNavigator: hover index transitions
(`onKeyDown` lines 298-306, search `onChange` lines 355-361) -/

/-- Search/navigation state while the panel is open. -/
structure NavState where
  query : String
  hover : Int
deriving DecidableEq

/-- The events the hover-index claims quantify over: the two arrow keys and a
query edit. -/
inductive NavEvent where
  | arrowDown
  | arrowUp
  | queryChange (q : String)

/-- One event transition: `ArrowDown` does
`setHoverIdx(i => Math.min(i + 1, filtered.length - 1))`, `ArrowUp` does
`setHoverIdx(i => Math.max(i - 1, 0))`, and a query edit does
`setQuery(...); setHoverIdx(0)`. -/
def navStep (opts : List String) (s : NavState) : NavEvent → NavState
  | .arrowDown =>
    { s with
      hover := min (s.hover + 1) (((filteredList opts s.query).length : Int) - 1) }
  | .arrowUp =>
    { s with hover := max (s.hover - 1) 0 }
  | .queryChange q => { query := q, hover := 0 }

/-- Run a sequence of navigation events. -/
def navRun (opts : List String) (s : NavState) (events : List NavEvent) :
    NavState :=
  events.foldl (navStep opts) s

/-! ### PlacementEngine (`computePlacement`, lines 244-266)
Pixel quantities are rationals, matching the real-valued CSS pixel
coordinates of `getBoundingClientRect`. -/

/-- The anchor button's bounding box fields used by `computePlacement`. -/
structure Rect where
  top : ℚ
  left : ℚ
  width : ℚ

/-- The computed panel geometry. -/
structure Placement where
  top : ℚ
  left : ℚ
  width : ℚ
  maxHeight : ℚ

/-- The fixed inset (`const pad = 8`). -/
def pad : ℚ := 8

/-- `computePlacement` from the source, as a function of the anchor rect, the
viewport size and the `maxPanelHeight` prop. -/
def computePlacement (r : Rect) (innerWidth innerHeight maxPanelHeight : ℚ) :
    Placement :=
  let width := min r.width (innerWidth - pad * 2)
  let left := max pad (min r.left (innerWidth - width - pad))
  let maxH := min maxPanelHeight (innerHeight - pad * 2)
  let top := min r.top (innerHeight - pad)
  { top := top, left := left, width := width, maxHeight := maxH }

/-! ### Fetch staleness (the `cancelled` flag, lines 86-166)
A configuration epoch is one run of the fetch effect; its cleanup (lines
164-166) sets the run's `cancelled` flag exactly when the configuring inputs
change, so a fetch started in epoch `e` is cancelled iff the current epoch
has moved past `e`. -/

/-- Events of the fetch-lifecycle trace: a configuring-input change (which
runs the previous effect's cleanup and starts a new effect run), or the
resolution of the fetch started in epoch `e`. -/
inductive FetchEvent where
  | configChange
  | resolve (e : Nat) (r : FetchResult)

/-- Trace state: the current epoch, the option state, and the log of epochs
whose fetch result was actually committed to state. -/
structure EpochState where
  epoch : Nat
  st : OptState
  commits : List Nat

/-- One trace step.  A config change increments the epoch (cancelling the
prior run's fetch) and starts the new run's fetch; a resolution whose epoch
was cancelled (`e < epoch`) hits the `if (cancelled) return` / `!cancelled`
guards and leaves all state untouched, otherwise the result is committed. -/
def epochStep (label : String) (s : EpochState) : FetchEvent → EpochState
  | .configChange =>
    { epoch := s.epoch + 1, st := startFetch s.st, commits := s.commits }
  | .resolve e r =>
    if e < s.epoch then s
    else { s with st := applyFetchResult label s.st r,
                  commits := s.commits ++ [e] }

/-- Run a fetch-lifecycle trace. -/
def epochRun (label : String) (s : EpochState) (tr : List FetchEvent) :
    EpochState :=
  tr.foldl (epochStep label) s

/-- The epochs mentioned by the `resolve` events of a trace.  A real trace is
well-formed: each epoch's fetch resolves at most once (a promise settles
once), so this list has no duplicates. -/
def resolveEpochs (tr : List FetchEvent) : List Nat :=
  tr.filterMap (fun ev =>
    match ev with
    | .resolve e _ => some e
    | _ => none)

/-! ## Lemmas about first-occurrence deduplication -/

theorem dedupFirstFuel_congr : ∀ (n m : Nat) (l : List String),
    l.length ≤ n → l.length ≤ m → dedupFirstFuel n l = dedupFirstFuel m l
  | n, m, [], _, _ => by cases n <;> cases m <;> rfl
  | n + 1, m + 1, x :: xs, hn, hm => by
    simp only [dedupFirstFuel]
    have hf : (xs.filter (· ≠ x)).length ≤ xs.length :=
      List.length_filter_le _ _
    have := dedupFirstFuel_congr n m (xs.filter (· ≠ x))
      (le_trans hf (Nat.le_of_succ_le_succ hn))
      (le_trans hf (Nat.le_of_succ_le_succ hm))
    rw [this]

theorem dedupFirst_cons (x : String) (xs : List String) :
    dedupFirst (x :: xs) = x :: dedupFirst (xs.filter (· ≠ x)) := by
  simp only [dedupFirst, List.length_cons, dedupFirstFuel]
  rw [dedupFirstFuel_congr xs.length (xs.filter (· ≠ x)).length _
    (List.length_filter_le _ _) (le_refl _)]

theorem mem_dedupFirst (x : String) : ∀ l : List String,
    x ∈ dedupFirst l ↔ x ∈ l
  | [] => by simp [dedupFirst, dedupFirstFuel]
  | a :: xs => by
    rw [dedupFirst_cons]
    have IH := mem_dedupFirst x (xs.filter (· ≠ a))
    simp only [List.mem_cons, IH, List.mem_filter, decide_eq_true_eq]
    by_cases hxa : x = a <;> simp [hxa]
termination_by l => l.length
decreasing_by
  simpa using Nat.lt_succ_of_le (List.length_filter_le _ _)

theorem nodup_dedupFirst : ∀ l : List String, (dedupFirst l).Nodup
  | [] => by simp [dedupFirst, dedupFirstFuel]
  | a :: xs => by
    rw [dedupFirst_cons]
    refine List.nodup_cons.mpr ⟨?_, nodup_dedupFirst (xs.filter (· ≠ a))⟩
    intro hmem
    have := (mem_dedupFirst a _).mp hmem
    simp at this
termination_by l => l.length
decreasing_by
  simpa using Nat.lt_succ_of_le (List.length_filter_le _ _)

theorem dedupFirst_sublist : ∀ l : List String, List.Sublist (dedupFirst l) l
  | [] => by simp [dedupFirst, dedupFirstFuel]
  | a :: xs => by
    rw [dedupFirst_cons]
    exact (dedupFirst_sublist (xs.filter (· ≠ a))).trans
      (List.filter_sublist xs) |>.cons₂ a
termination_by l => l.length
decreasing_by
  simpa using Nat.lt_succ_of_le (List.length_filter_le _ _)

theorem dedupFirst_append (filt : List String) :
    ∀ sel : List String, sel.Nodup →
      dedupFirst (sel ++ filt)
        = sel ++ dedupFirst (filt.filter (fun x => !(sel.contains x)))
  | [], _ => by
    simp only [List.nil_append]
    congr 1
    refine (List.filter_eq_self.mpr ?_).symm
    intro a _
    rfl
  | a :: sel, h => by
    have hnotmem : a ∉ sel := (List.nodup_cons.mp h).1
    have hsel : sel.Nodup := (List.nodup_cons.mp h).2
    rw [List.cons_append, dedupFirst_cons, List.filter_append,
      List.filter_eq_self.mpr (fun x hx => by
        simp only [decide_eq_true_eq]
        exact fun hxa => hnotmem (hxa ▸ hx)),
      dedupFirst_append (filt.filter (· ≠ a)) sel hsel,
      List.filter_filter]
    simp only [List.cons_append, List.cons.injEq, true_and,
      List.append_cancel_left_eq]
    congr 1
    apply List.filter_congr
    intro x _
    simp only [List.contains_cons, Bool.not_or, Bool.and_comm]
    congr 1
    cases hxa : (x == a) <;> simp_all

/-! ## The claims -/

/-- C1: in multi-select mode, `toggle(opt)` on a Selection not containing
`opt` yields `Selection ++ [opt]`; on a Selection containing `opt` it yields
the Selection with `opt` removed, with the relative order of the remaining
elements preserved (the result is a sublist of the previous Selection
keeping every other element's multiplicity).  The previous Selection value
is untouched — `toggleOption` builds a fresh list, which is what the
embedding's purity expresses. -/
theorem toggleOption_multi_correct (selected : List String) (opt : String) :
    (opt ∉ selected → toggleOption true selected opt = selected ++ [opt]) ∧
    (opt ∈ selected →
      toggleOption true selected opt = selected.filter (· ≠ opt) ∧
      opt ∉ toggleOption true selected opt ∧
      List.Sublist (toggleOption true selected opt) selected ∧
      ∀ x, x ≠ opt →
        (toggleOption true selected opt).count x = selected.count x) := by
  constructor
  · intro h
    simp [toggleOption, h]
  · intro h
    have heq : toggleOption true selected opt = selected.filter (· ≠ opt) := by
      simp [toggleOption, h]
    refine ⟨heq, ?_, ?_, ?_⟩
    · rw [heq]
      simp [List.mem_filter]
    · rw [heq]; exact List.filter_sublist selected
    · intro x hx
      rw [heq]
      exact List.count_filter (by simpa using hx)

/-- Witness for C1 at concrete inputs: toggling an absent option appends it,
toggling a present option removes it. -/
theorem toggleOption_multi_correct_witness :
    toggleOption true ["AAPL"] "MSFT" = ["AAPL"] ++ ["MSFT"] ∧
    toggleOption true ["AAPL", "MSFT"] "MSFT"
      = ["AAPL", "MSFT"].filter (· ≠ "MSFT") :=
  ⟨(toggleOption_multi_correct ["AAPL"] "MSFT").1 (by decide),
   ((toggleOption_multi_correct ["AAPL", "MSFT"] "MSFT").2 (by decide)).1⟩

/-- C2: `selectAll` produces exactly the set union of the current Selection
and the FilteredList: no duplicates, membership is exactly the union, the
selected elements keep their positions (the result starts with `selected`
unchanged), and the newly added elements are the FilteredList elements not
already selected, appended after them in FilteredList order (the appended
block is a sublist of the FilteredList). -/
theorem selectAll_union (selected filtered : List String)
    (h : selected.Nodup) :
    (selectAll selected filtered).Nodup ∧
    (∀ x, x ∈ selectAll selected filtered ↔ x ∈ selected ∨ x ∈ filtered) ∧
    selectAll selected filtered
      = selected
          ++ dedupFirst (filtered.filter (fun x => !(selected.contains x))) ∧
    List.Sublist
      (dedupFirst (filtered.filter (fun x => !(selected.contains x))))
      filtered := by
  refine ⟨nodup_dedupFirst _, ?_, dedupFirst_append filtered selected h, ?_⟩
  · intro x
    rw [selectAll, mem_dedupFirst, List.mem_append]
  · exact (dedupFirst_sublist _).trans (List.filter_sublist filtered)

/-- Witness for C2 at a concrete input:
`selectAll ["B"] ["A","B","C"] = ["B","A","C"]`. -/
theorem selectAll_union_witness :
    (selectAll ["B"] ["A", "B", "C"]).Nodup ∧
    selectAll ["B"] ["A", "B", "C"]
      = ["B"] ++ dedupFirst (["A", "B", "C"].filter
          (fun x => !(["B"].contains x))) :=
  ⟨(selectAll_union ["B"] ["A", "B", "C"] (by decide)).1,
   (selectAll_union ["B"] ["A", "B", "C"] (by decide)).2.2.1⟩

/-- C10: `selectAll` does not branch on the `multiSelect` mode — in every
mode it proposes the union of the Selection and the FilteredList, so in
single-select mode it can emit a selection with more than one element,
although single-select `toggle` never emits more than one element. -/
theorem selectAll_ignores_mode (m m' : Bool) (selected filtered : List String) :
    panelEmit m selected filtered .selectAllAction
      = panelEmit m' selected filtered .selectAllAction ∧
    panelEmit m selected filtered .selectAllAction
      = dedupFirst (selected ++ filtered) ∧
    (∀ opt, (panelEmit false selected filtered (.toggleAction opt)).length ≤ 1) ∧
    1 < (panelEmit false [] ["AAPL", "MSFT"] .selectAllAction).length := by
  refine ⟨rfl, rfl, ?_, by decide⟩
  intro opt
  simp only [panelEmit, toggleOption, if_neg (Bool.false_ne_true)]
  split
  · simp
  · simp

theorem jsToLower_eq_empty_iff (s : String) : jsToLower s = "" ↔ s = "" := by
  cases s with
  | mk data =>
    simp [jsToLower, String.ext_iff]

/-- C5 counterexample: with options `["ab"]` and the query `" a "`, the code
returns `["ab"]` (it trims the query to `"a"` first), while the claim's
filter — options whose lowercase form contains the lowercase query `" a "` —
returns `[]`. -/
theorem searchFilter_counterexample :
    filteredList ["ab"] " a " = ["ab"] ∧ specFilteredList ["ab"] " a " = [] := by
  exact ⟨by decide, by decide⟩

/-- C5 amended: SearchFilter is pure and equals the claimed case-insensitive
substring filter applied to the *trimmed* query: the filtered list consists
of the options whose lowercase form contains the lowercase trimmed query, in
the order of the effective options list, and a query that is empty (or
whitespace-only, so that it trims to empty) returns the full list. -/
theorem searchFilter_refines_spec_on_trimmed (opts : List String) (q : String) :
    filteredList opts q = specFilteredList opts (jsTrim q) ∧
    List.Sublist (filteredList opts q) opts ∧
    (jsTrim q = "" → filteredList opts q = opts) := by
  have key : filteredList opts q = specFilteredList opts (jsTrim q) := by
    by_cases h : jsTrim q = ""
    · rw [h]
      simp only [filteredList, specFilteredList, h]
      norm_num [jsToLower]
    · have h' : jsToLower (jsTrim q) ≠ "" :=
        fun hh => h ((jsToLower_eq_empty_iff _).mp hh)
      simp only [filteredList, specFilteredList, if_neg h, if_neg h']
  have sub : List.Sublist (filteredList opts q) opts := by
    simp only [filteredList]
    by_cases h' : jsToLower (jsTrim q) = ""
    · rw [if_pos h']
    · rw [if_neg h']
      exact List.filter_sublist opts
  refine ⟨key, sub, fun h => ?_⟩
  rw [key, h]
  rfl

/-- Witness for the amended C5 theorem at a concrete input: a
whitespace-only query trims to empty and returns the full list. -/
theorem searchFilter_refines_spec_on_trimmed_witness :
    filteredList ["AAPL"] " " = ["AAPL"] :=
  (searchFilter_refines_spec_on_trimmed ["AAPL"] " ").2.2 (by decide)

/-- The HoverIndex range the claim asserts: always within
`[-1, len(FilteredList) - 1]`. -/
def hoverInRange (opts : List String) (s : NavState) : Prop :=
  -1 ≤ s.hover ∧ s.hover ≤ ((filteredList opts s.query).length : Int) - 1

/-- The range the code actually maintains: a query change writes hover 0 even
when the filtered list is empty, so the upper bound is
`max (len(FilteredList) - 1) 0`. -/
def hoverInRangeAmended (opts : List String) (s : NavState) : Prop :=
  -1 ≤ s.hover ∧
    s.hover ≤ max (((filteredList opts s.query).length : Int) - 1) 0

instance (opts : List String) (s : NavState) :
    Decidable (hoverInRange opts s) := by
  unfold hoverInRange; infer_instance

instance (opts : List String) (s : NavState) :
    Decidable (hoverInRangeAmended opts s) := by
  unfold hoverInRangeAmended; infer_instance

/-- C6 counterexample: from options `["a"]`, query `""`, hover `-1` (a state
inside the claimed range), the query-change event `"z"` empties the filtered
list and resets hover to `0`, which is outside `[-1, 0 - 1]`. -/
theorem hover_range_counterexample :
    hoverInRange ["a"] ⟨"", -1⟩ ∧
    ¬ hoverInRange ["a"] (navRun ["a"] ⟨"", -1⟩ [NavEvent.queryChange "z"]) := by
  exact ⟨by decide, by decide⟩

/-- C6 amended: across every sequence of arrow-key and query-change events,
HoverIndex stays within `[-1, max(len(FilteredList) - 1, 0)]` — the claimed
interval except that a query change may park hover at `0` when the filtered
list is empty. -/
theorem hover_range_invariant (opts : List String) (s : NavState)
    (events : List NavEvent) (h : hoverInRangeAmended opts s) :
    hoverInRangeAmended opts (navRun opts s events) := by
  induction events generalizing s with
  | nil => exact h
  | cons e rest ih =>
    refine ih (navStep opts s e) ?_
    obtain ⟨h1, h2⟩ := h
    cases e with
    | arrowDown =>
      have hL : (0 : Int) ≤ ((filteredList opts s.query).length : Int) :=
        Int.natCast_nonneg _
      exact ⟨le_min (by omega) (by omega),
        le_trans (min_le_right _ _) (le_max_left _ _)⟩
    | arrowUp =>
      exact ⟨le_trans (by norm_num) (le_max_right (s.hover - 1) 0),
        max_le (le_trans (by omega) h2) (le_max_right _ _)⟩
    | queryChange q =>
      exact ⟨(by norm_num : (-1 : Int) ≤ 0), le_max_right _ _⟩

/-- Witness for the amended C6 invariant on a concrete run that empties the
filtered list. -/
theorem hover_range_invariant_witness :
    hoverInRangeAmended ["a"]
      (navRun ["a"] ⟨"", -1⟩
        [NavEvent.arrowDown, NavEvent.queryChange "z", NavEvent.arrowDown]) :=
  hover_range_invariant ["a"] ⟨"", -1⟩ _ (by decide)

/-! ## PlacementEngine lemmas -/

theorem placement_left_ge_pad (r : Rect) (W H mph : ℚ) :
    pad ≤ (computePlacement r W H mph).left :=
  le_max_left _ _

theorem placement_left_add_width_le (r : Rect) (W H mph : ℚ) :
    (computePlacement r W H mph).left + (computePlacement r W H mph).width
      ≤ W - pad := by
  simp only [computePlacement]
  have hw : min r.width (W - pad * 2) ≤ W - pad * 2 := min_le_right _ _
  have h1 : max pad (min r.left (W - min r.width (W - pad * 2) - pad))
      ≤ W - min r.width (W - pad * 2) - pad :=
    max_le (by linarith) (min_le_right _ _)
  linarith

theorem placement_maxHeight_le (r : Rect) (W H mph : ℚ) :
    (computePlacement r W H mph).maxHeight ≤ H - 2 * pad := by
  simp only [computePlacement]
  rw [two_mul]
  calc min mph (H - pad * 2) ≤ H - pad * 2 := min_le_right _ _
    _ = H - (pad + pad) := by ring

theorem placement_top_le (r : Rect) (W H mph : ℚ) :
    (computePlacement r W H mph).top ≤ H - pad :=
  min_le_right _ _

/-- C7: `computePlacement` computes exactly the claimed formulas
(`width = min(anchorWidth, viewportWidth − 2·pad)`,
`left = clamp(anchorLeft, pad, viewportWidth − width − pad)`,
`maxHeight = min(maxPanelHeight, viewportHeight − 2·pad)`,
`top = min(anchorTop, viewportHeight − pad)` with `pad = 8`), and the output
satisfies `pad ≤ left`, `left + width ≤ viewportWidth − pad` and
`maxHeight ≤ viewportHeight − 2·pad`. -/
theorem computePlacement_correct (r : Rect) (W H mph : ℚ) :
    pad = 8 ∧
    (computePlacement r W H mph).width = min r.width (W - 2 * pad) ∧
    (computePlacement r W H mph).left
      = max pad (min r.left (W - (computePlacement r W H mph).width - pad)) ∧
    (computePlacement r W H mph).maxHeight = min mph (H - 2 * pad) ∧
    (computePlacement r W H mph).top = min r.top (H - pad) ∧
    pad ≤ (computePlacement r W H mph).left ∧
    (computePlacement r W H mph).left + (computePlacement r W H mph).width
      ≤ W - pad ∧
    (computePlacement r W H mph).maxHeight ≤ H - 2 * pad := by
  refine ⟨rfl, ?_, ?_, ?_, rfl, placement_left_ge_pad r W H mph,
    placement_left_add_width_le r W H mph, placement_maxHeight_le r W H mph⟩
  · simp only [computePlacement]
    rw [mul_comm]
  · simp only [computePlacement]
  · simp only [computePlacement]
    rw [mul_comm]

/-- C8 counterexample: with the anchor near the bottom of a 600×600 viewport
(anchor top 592) and `maxPanelHeight = 280`, the computed panel has
`top = 592` and `maxHeight = 280`, so `top + maxHeight = 872 > 600`: the
panel extends past the bottom viewport edge.  And with the anchor scrolled
above the viewport (anchor top −50), the computed `top` is `−50 < 0`. -/
theorem panel_overflow_counterexample :
    ((computePlacement ⟨592, 0, 100⟩ 600 600 280).top = 592 ∧
     (computePlacement ⟨592, 0, 100⟩ 600 600 280).maxHeight = 280 ∧
     ¬((computePlacement ⟨592, 0, 100⟩ 600 600 280).top
         + (computePlacement ⟨592, 0, 100⟩ 600 600 280).maxHeight ≤ 600)) ∧
    (computePlacement ⟨-50, 0, 100⟩ 600 600 280).top = -50 := by
  norm_num [computePlacement, pad, min_def, max_def]

/-- C8 amended: the computed placement keeps the panel inside the viewport
horizontally (`0 ≤ left` and `left + width ≤ viewportWidth`) and keeps the
top edge at most `viewportHeight − pad`; but `top` is not clamped below by
`0` and `top + maxHeight` is not clamped to `viewportHeight`, so the panel
may extend past the bottom edge (only the top edge is kept on screen). -/
theorem panel_viewport_clamp_amended (r : Rect) (W H mph : ℚ) :
    0 ≤ (computePlacement r W H mph).left ∧
    (computePlacement r W H mph).left + (computePlacement r W H mph).width
      ≤ W ∧
    (computePlacement r W H mph).top ≤ H - pad := by
  refine ⟨?_, ?_, placement_top_le r W H mph⟩
  · exact le_trans (by norm_num [pad]) (placement_left_ge_pad r W H mph)
  · have := placement_left_add_width_le r W H mph
    have hpad : (0 : ℚ) ≤ pad := by norm_num [pad]
    linarith

/-- C3: option-source precedence.  For every props configuration and every
current state (in particular a state still holding an old `values` list —
this is what makes the non-empty→empty transition fall through instead of
sticking): (1) a non-empty explicit `values` list is installed as the
effective options and no fetch is started; (2) absent that, with no
`dataUrl`, the static `options` prop is installed and no fetch is started;
(3) otherwise a fetch is started, the state enters the loading lifecycle,
and the fetch's resolution installs the normalized remote list (success) or
the empty list (failure). -/
theorem optionSource_resolution (p : Props) (s : OptState) :
    (∀ v, p.values = some v → v ≠ [] →
      (configStep p s).effectiveOptions = v ∧ fetchStarts p = false) ∧
    (valuesNonempty p = false → p.dataUrl = none →
      (configStep p s).effectiveOptions = p.options ∧
        fetchStarts p = false) ∧
    (∀ u, valuesNonempty p = false → p.dataUrl = some u →
      fetchStarts p = true ∧ (configStep p s).loading = true ∧
      (∀ d, (applyFetchResult p.label (configStep p s)
              (.success d)).effectiveOptions = normalizeRemote p.label d) ∧
      (∀ m, (applyFetchResult p.label (configStep p s)
              (.failure m)).effectiveOptions = [])) := by
  refine ⟨?_, ?_, ?_⟩
  · intro v hv hne
    have hval : valuesNonempty p = true := by
      simp only [valuesNonempty, hv, gt_iff_lt, decide_eq_true_eq]
      exact List.length_pos.mpr hne
    have hfs : fetchStarts p = false := by
      simp [fetchStarts, hval]
    constructor
    · simp [configStep, hfs, syncEffect, hval, hv]
    · exact hfs
  · intro hval hurl
    have hfs : fetchStarts p = false := by
      simp [fetchStarts, hurl]
    constructor
    · simp [configStep, hfs, syncEffect, hval, hurl]
    · exact hfs
  · intro u hval hurl
    have hfs : fetchStarts p = true := by
      simp [fetchStarts, hval, hurl]
    refine ⟨hfs, ?_, fun d => rfl, fun m => rfl⟩
    simp [configStep, hfs, startFetch]

/-- Witness for C3 at concrete inputs, one per precedence case, starting
from a state holding stale effective options. -/
theorem optionSource_resolution_witness :
    (configStep ⟨some ["X"], ["o"], some "u", "Tickers"⟩
        ⟨["old"], false, none⟩).effectiveOptions = ["X"] ∧
    fetchStarts ⟨some ["X"], ["o"], some "u", "Tickers"⟩ = false ∧
    (configStep ⟨some [], ["o"], none, "Tickers"⟩
        ⟨["old"], false, none⟩).effectiveOptions = ["o"] ∧
    fetchStarts ⟨none, ["o"], some "u", "Tickers"⟩ = true ∧
    (applyFetchResult "Tickers"
        (configStep ⟨none, ["o"], some "u", "Tickers"⟩ ⟨["old"], false, none⟩)
        (.success (Json.arr [Json.str "A"]))).effectiveOptions
      = normalizeRemote "Tickers" (Json.arr [Json.str "A"]) :=
  ⟨((optionSource_resolution ⟨some ["X"], ["o"], some "u", "Tickers"⟩
      ⟨["old"], false, none⟩).1 ["X"] rfl (by decide)).1,
   ((optionSource_resolution ⟨some ["X"], ["o"], some "u", "Tickers"⟩
      ⟨["old"], false, none⟩).1 ["X"] rfl (by decide)).2,
   ((optionSource_resolution ⟨some [], ["o"], none, "Tickers"⟩
      ⟨["old"], false, none⟩).2.1 (by decide) rfl).1,
   ((optionSource_resolution ⟨none, ["o"], some "u", "Tickers"⟩
      ⟨["old"], false, none⟩).2.2 "u" (by decide) rfl).1,
   (((optionSource_resolution ⟨none, ["o"], some "u", "Tickers"⟩
      ⟨["old"], false, none⟩).2.2 "u" (by decide) rfl).2.2.1
      (Json.arr [Json.str "A"]))⟩

/-! ## Fetch staleness lemmas -/

theorem epochRun_commits_extend (label : String) :
    ∀ (tr : List FetchEvent) (s : EpochState),
      ∃ c, (epochRun label s tr).commits = s.commits ++ c ∧
        List.Sublist c (resolveEpochs tr)
  | [], s => ⟨[], by simp [epochRun], by simp [resolveEpochs]⟩
  | ev :: tr, s => by
    obtain ⟨c, hc, hsub⟩ :=
      epochRun_commits_extend label tr (epochStep label s ev)
    have hrun : epochRun label s (ev :: tr)
        = epochRun label (epochStep label s ev) tr := rfl
    cases ev with
    | configChange =>
      refine ⟨c, ?_, ?_⟩
      · rw [hrun, hc]; rfl
      · simpa [resolveEpochs] using hsub
    | resolve e r =>
      by_cases h : e < s.epoch
      · refine ⟨c, ?_, ?_⟩
        · rw [hrun, hc]
          simp [epochStep, h]
        · simp only [resolveEpochs, List.filterMap_cons]
          exact hsub.cons e
      · refine ⟨e :: c, ?_, ?_⟩
        · rw [hrun, hc]
          simp [epochStep, h, List.append_assoc]
        · simp only [resolveEpochs, List.filterMap_cons]
          exact hsub.cons₂ e

/-- C9: cooperative cancellation.  (1) Staleness: once a configuring-input
change has moved the epoch past `e` (the cleanup set fetch `e`'s `cancelled`
flag), the later resolution of fetch `e` — success or failure — leaves the
entire state unchanged: its result is never committed.  (2) At most one
fetch result is committed per configuration epoch: over any trace in which
each fetch settles at most once, the committed-epoch log has no
duplicates. -/
theorem fetch_staleness (label : String) (s0 : EpochState) :
    (∀ t (e : Nat) (res : FetchResult), e < (epochRun label s0 t).epoch →
      epochRun label s0 (t ++ [FetchEvent.resolve e res])
        = epochRun label s0 t) ∧
    (∀ tr, s0.commits = [] → (resolveEpochs tr).Nodup →
      ((epochRun label s0 tr).commits).Nodup) := by
  constructor
  · intro t e res h
    rw [epochRun] at h
    rw [epochRun, List.foldl_append]
    simp [epochStep, h, epochRun]
  · intro tr h0 hnd
    obtain ⟨c, hc, hsub⟩ := epochRun_commits_extend label tr s0
    rw [hc, h0, List.nil_append]
    exact hnd.sublist hsub

/-- Witness for C9 on a concrete trace: a config change arrives while fetch 0
is in flight; fetch 0's late resolution changes nothing, and the committed
log of a well-formed trace stays duplicate-free. -/
theorem fetch_staleness_witness :
    epochRun "Tickers" ⟨0, ⟨[], true, none⟩, []⟩
        ([FetchEvent.configChange]
          ++ [FetchEvent.resolve 0 (FetchResult.failure "boom")])
      = epochRun "Tickers" ⟨0, ⟨[], true, none⟩, []⟩ [FetchEvent.configChange] ∧
    ((epochRun "Tickers" ⟨0, ⟨[], true, none⟩, []⟩
        [FetchEvent.configChange,
         FetchEvent.resolve 1 (FetchResult.failure "x")]).commits).Nodup :=
  ⟨(fetch_staleness "Tickers" ⟨0, ⟨[], true, none⟩, []⟩).1
      [FetchEvent.configChange] 0 (FetchResult.failure "boom") (by decide),
   (fetch_staleness "Tickers" ⟨0, ⟨[], true, none⟩, []⟩).2
      [FetchEvent.configChange,
       FetchEvent.resolve 1 (FetchResult.failure "x")] rfl (by decide)⟩

/-! ## RemoteFetcher normalization: spec-shaped extraction -/

/-- The field names each semantic hint tries, primary then lowercase alias
(the ticker hint has two primary/alias pairs). -/
def hintFields (label : String) : List String :=
  if label = "Tickers" then ["Symbol", "symbol", "Value", "value"]
  else if label = "Industry" then ["Industry", "industry"]
  else if label = "Sector" then ["Sector", "sector"]
  else []

/-- First hit of a `??` chain over a list of field names. -/
def firstFieldNN (item : Json) : List String → Option Json
  | [] => none
  | n :: ns => (item.getFieldNN n).or (firstFieldNN item ns)

/-- `buildLabel` is exactly the first-hit-of-the-hint's-field-names rule. -/
theorem buildLabel_eq_firstField (label : String) (item : Json) :
    buildLabel label item
      = (firstFieldNN item (hintFields label)).map jsToString := by
  unfold buildLabel hintFields
  by_cases h1 : label = "Tickers"
  · simp [h1, firstFieldNN, Option.or_assoc]
  · by_cases h2 : label = "Industry"
    · simp [h1, h2, firstFieldNN, Option.or_assoc]
    · by_cases h3 : label = "Sector"
      · simp [h1, h2, h3, firstFieldNN, Option.or_assoc]
      · simp [h1, h2, h3, firstFieldNN]

/-- The spec's §4.1 object-array extraction, amended only where the
counterexample forces it: take each element's field (trying the hint's
primary then lowercase-alias names, a JS-`null` field value counting as
absent), stringify it, and drop the elements lacking the field *or whose
stringified value is empty*. -/
def specExtractAmended (label : String) (data : List Json) : List String :=
  (data.filterMap (fun item =>
    (firstFieldNN item (hintFields label)).map jsToString)).filter (· ≠ "")

/-- Property access `item[name]` as the source evaluates it inside the
`try`: on JS `null` the access itself throws a TypeError (caught by the
surrounding `catch`); on an object it looks the field up; on any other
primitive it yields `undefined` (`none`). -/
def Json.getFieldE : Json → String → Except String (Option Json)
  | .null, name =>
    .error ("TypeError: cannot read properties of null (reading " ++ name ++ ")")
  | .obj fields, name =>
    .ok ((fields.find? (fun kv => kv.fst = name)).map Prod.snd)
  | _, _ => .ok none

/-- The `??` step over a throwing access: a JS-null field value falls
through like an absent one; a throw propagates. -/
def Json.getFieldNNE (j : Json) (name : String) : Except String (Option Json) :=
  match j.getFieldE name with
  | .error e => .error e
  | .ok (some .null) => .ok none
  | .ok r => .ok r

/-- First hit of a `??` chain over field names, with throw propagation. -/
def firstFieldE (item : Json) : List String → Except String (Option Json)
  | [] => .ok none
  | n :: ns =>
    match item.getFieldNNE n with
    | .error e => .error e
    | .ok (some v) => .ok (some v)
    | .ok none => firstFieldE item ns

/-- `buildLabel` with the JS evaluation of the field accesses modelled: for
the three recognized labels the chain starts with a property access on
`item`, which throws when `item` is JS null; an unrecognized label touches
no field and returns null even for a null item. -/
def buildLabelE (label : String) (item : Json) : Except String (Option String) :=
  if label = "Tickers" ∨ label = "Industry" ∨ label = "Sector" then
    Except.map (Option.map jsToString) (firstFieldE item (hintFields label))
  else .ok none

/-- JS `data.map(buildLabel)` evaluated left to right: the first throwing
element aborts the whole `map`, and control lands in the `catch`. -/
def mapBuildLabelsE (label : String) :
    List Json → Except String (List (Option String))
  | [] => .ok []
  | j :: js =>
    match buildLabelE label j with
    | .error e => .error e
    | .ok lab =>
      match mapBuildLabelsE label js with
      | .error e => .error e
      | .ok labs => .ok (lab :: labs)

/-- The array-shape branch of `load` with throw propagation (lines 122-129
and 131-137 as executed inside the `try`). -/
def extractFromArrayE (label : String) (data : List Json) :
    Except String (List String) :=
  match data with
  | [] => .ok (data.map jsToString)
  | d0 :: _ =>
    if d0.typeofObject then
      match mapBuildLabelsE label data with
      | .error e => .error e
      | .ok labs => .ok ((labs.filterMap id).filter (· ≠ ""))
    else .ok (data.map jsToString)

/-- The shape dispatch of `load` with throw propagation. -/
def extractStageE (label : String) (data : Json) : Except String (List String) :=
  match data with
  | .arr xs => extractFromArrayE label xs
  | _ =>
    match data.getField "symbols" with
    | some (.arr ys) => extractFromArrayE label ys
    | _ => .ok []

/-- The whole `load` normalization with the throwing path modelled: shape
dispatch, then dedup and case-insensitive sort on success; a TypeError
thrown during extraction propagates. -/
def normalizeRemoteE (label : String) (data : Json) :
    Except String (List String) :=
  match extractStageE label data with
  | .error e => .error e
  | .ok vals => .ok ((dedupFirst vals).insertionSort ciLE)

/-- Committing a fetch whose body decoded `data`: the normalization runs
inside the `try`, so a successful normalization installs the list
(line 148) while an extraction TypeError lands in the `catch` (lines
149-154: `loadError` set, options emptied); `finally` clears loading. -/
def applyFetchSuccessE (label : String) (s : OptState) (data : Json) :
    OptState :=
  match normalizeRemoteE label data with
  | .ok vals => { s with effectiveOptions := vals, loading := false }
  | .error msg =>
    { s with loadError := some msg, effectiveOptions := [], loading := false }

theorem getFieldE_of_not_null (item : Json) (h : item.isNull = false)
    (name : String) : item.getFieldE name = .ok (item.getField name) := by
  cases item <;> first
    | rfl
    | simp [Json.isNull] at h

theorem getFieldNNE_of_not_null (item : Json) (h : item.isNull = false)
    (name : String) : item.getFieldNNE name = .ok (item.getFieldNN name) := by
  rw [Json.getFieldNNE, getFieldE_of_not_null item h name, Json.getFieldNN]
  cases hf : item.getField name with
  | none => rfl
  | some j => cases j <;> rfl

theorem firstFieldE_of_not_null (item : Json) (h : item.isNull = false) :
    ∀ names : List String,
      firstFieldE item names = .ok (firstFieldNN item names)
  | [] => rfl
  | n :: ns => by
    rw [firstFieldE, getFieldNNE_of_not_null item h n, firstFieldNN]
    cases hf : item.getFieldNN n with
    | none => simpa [Option.or] using firstFieldE_of_not_null item h ns
    | some v => rfl

theorem buildLabelE_of_not_null (label : String) (item : Json)
    (h : item.isNull = false) :
    buildLabelE label item = .ok (buildLabel label item) := by
  rw [buildLabelE, buildLabel_eq_firstField]
  by_cases h1 : label = "Tickers" ∨ label = "Industry" ∨ label = "Sector"
  · rw [if_pos h1, firstFieldE_of_not_null item h]
    rfl
  · rw [if_neg h1]
    push_neg at h1
    simp [hintFields, h1.1, h1.2.1, h1.2.2, firstFieldNN]

theorem mapBuildLabelsE_of_not_null (label : String) :
    ∀ xs : List Json, (∀ j ∈ xs, j.isNull = false) →
      mapBuildLabelsE label xs = .ok (xs.map (buildLabel label))
  | [], _ => rfl
  | j :: js, h => by
    rw [mapBuildLabelsE,
      buildLabelE_of_not_null label j (h j (List.mem_cons_self j js)),
      mapBuildLabelsE_of_not_null label js
        (fun x hx => h x (List.mem_cons_of_mem j hx))]
    rfl

theorem filterMap_id_map (f : Json → Option String) :
    ∀ l : List Json, (l.map f).filterMap id = l.filterMap f
  | [] => rfl
  | x :: l => by
    rw [List.map_cons, List.filterMap_cons, List.filterMap_cons,
      filterMap_id_map f l]
    cases f x <;> rfl

theorem extractFromArrayE_of_not_null (label : String) (xs : List Json)
    (h : ∀ j ∈ xs, j.isNull = false) :
    extractFromArrayE label xs = .ok (extractFromArray label xs) := by
  cases xs with
  | nil => rfl
  | cons d0 rest =>
    rw [extractFromArrayE, extractFromArray]
    by_cases hobj : d0.typeofObject = true
    · rw [if_pos hobj, if_pos hobj,
        mapBuildLabelsE_of_not_null label (d0 :: rest) h]
      show Except.ok
          ((((d0 :: rest).map (buildLabel label)).filterMap id).filter (· ≠ ""))
        = Except.ok
          (((d0 :: rest).filterMap (buildLabel label)).filter (· ≠ ""))
      rw [filterMap_id_map (buildLabel label) (d0 :: rest)]
    · rw [if_neg hobj, if_neg hobj]

theorem buildLabelE_null_error (label : String)
    (hl : label = "Tickers" ∨ label = "Industry" ∨ label = "Sector") :
    ∃ msg, buildLabelE label Json.null = .error msg := by
  rcases hl with h | h | h <;> subst h <;> exact ⟨_, rfl⟩

theorem mapBuildLabelsE_error (label : String)
    (hl : label = "Tickers" ∨ label = "Industry" ∨ label = "Sector") :
    ∀ xs : List Json, (∃ j ∈ xs, j.isNull = true) →
      ∃ msg, mapBuildLabelsE label xs = .error msg
  | [], h => absurd h (by simp)
  | j :: js, h => by
    by_cases hj : j.isNull = true
    · have hjn : j = Json.null := by
        cases j <;> simp_all [Json.isNull]
      subst hjn
      obtain ⟨msg, hmsg⟩ := buildLabelE_null_error label hl
      exact ⟨msg, by rw [mapBuildLabelsE, hmsg]⟩
    · have hj' : j.isNull = false := by
        cases hb : j.isNull with
        | true => exact absurd hb hj
        | false => rfl
      have hjs : ∃ x ∈ js, x.isNull = true := by
        rcases h with ⟨x, hx, hxn⟩
        rcases List.mem_cons.mp hx with rfl | hx'
        · exact absurd hxn hj
        · exact ⟨x, hx', hxn⟩
      obtain ⟨msg, hmsg⟩ := mapBuildLabelsE_error label hl js hjs
      exact ⟨msg,
        by rw [mapBuildLabelsE, buildLabelE_of_not_null label j hj', hmsg]⟩

/-- C4 counterexample: on the payload `[{"Symbol": ""}]` with the ticker
hint, the spec-described pipeline — extract the field, dropping only
elements lacking it, then deduplicate and sort case-insensitively — yields
`[""]`, but the code's `filter(Boolean)` also drops the falsy empty string
and yields `[]`. -/
theorem remote_normalize_counterexample :
    (dedupFirst (specExtractObjects "Symbol" "symbol"
        [Json.obj [("Symbol", Json.str "")]])).insertionSort ciLE = [""] ∧
    normalizeRemoteE "Tickers"
        (Json.arr [Json.obj [("Symbol", Json.str "")]]) = .ok [] :=
  ⟨by decide, rfl⟩

/-- C4 amended: the `load` normalization satisfies the claimed shape rules —
an array of primitives is stringified element-wise; an array of objects is
extracted per the hint's field names, dropping elements lacking the field or
whose value is JS-null or stringifies to empty, except that a JS-`null`
*array element* makes the extraction throw a TypeError, which the `catch`
turns into the failure outcome (`loadError` set, options emptied); an object
with a `symbols` array follows the same rules; any other shape yields `[]` —
and every successful result is deduplicated (first occurrence kept), sorted
case-insensitively and installed as the effective options, as in the
hint-`ticker` example `[{"Symbol":"AAPL"},{"Symbol":"msft"}] ↦
["AAPL","msft"]`. -/
theorem remote_normalize_correct (label : String) (data : Json) :
    (∀ xs, data = .arr xs → (∀ j ∈ xs, j.typeofObject = true) →
      (∀ j ∈ xs, j.isNull = false) →
      normalizeRemoteE label data
        = .ok ((dedupFirst (specExtractAmended label xs)).insertionSort ciLE)) ∧
    (∀ xs, data = .arr xs → (∀ j ∈ xs, j.typeofObject = false) →
      normalizeRemoteE label data
        = .ok ((dedupFirst (xs.map jsToString)).insertionSort ciLE)) ∧
    (∀ d0 rest, data = .arr (d0 :: rest) → d0.typeofObject = true →
      (∃ j ∈ d0 :: rest, j.isNull = true) →
      (label = "Tickers" ∨ label = "Industry" ∨ label = "Sector") →
      ∃ msg, normalizeRemoteE label data = .error msg ∧
        ∀ s : OptState,
          (applyFetchSuccessE label s data).loadError = some msg ∧
          (applyFetchSuccessE label s data).effectiveOptions = []) ∧
    (∀ fields ys, data = .obj fields →
      data.getField "symbols" = some (.arr ys) →
      ((∀ j ∈ ys, j.typeofObject = true) → (∀ j ∈ ys, j.isNull = false) →
        normalizeRemoteE label data
          = .ok ((dedupFirst (specExtractAmended label ys)).insertionSort ciLE)) ∧
      ((∀ j ∈ ys, j.typeofObject = false) →
        normalizeRemoteE label data
          = .ok ((dedupFirst (ys.map jsToString)).insertionSort ciLE))) ∧
    ((∀ xs, data ≠ .arr xs) →
      (∀ ys, data.getField "symbols" ≠ some (.arr ys)) →
      normalizeRemoteE label data = .ok []) ∧
    (∀ vals, normalizeRemoteE label data = .ok vals →
      vals.Nodup ∧ List.Sorted ciLE vals ∧
      ∀ s : OptState,
        (applyFetchSuccessE label s data).effectiveOptions = vals ∧
        (applyFetchSuccessE label s data).loading = false) ∧
    normalizeRemoteE "Tickers"
        (Json.arr [Json.obj [("Symbol", Json.str "AAPL")],
                   Json.obj [("Symbol", Json.str "msft")]])
      = .ok ["AAPL", "msft"] := by
  have hbridge : (fun item => buildLabel label item)
      = fun item => (firstFieldNN item (hintFields label)).map jsToString :=
    funext (buildLabel_eq_firstField label)
  have hobjcase : ∀ xs : List Json, (∀ j ∈ xs, j.typeofObject = true) →
      extractFromArray label xs = specExtractAmended label xs := by
    intro xs hobj
    cases xs with
    | nil => rfl
    | cons d0 rest =>
      rw [extractFromArray, if_pos (hobj d0 (List.mem_cons_self d0 rest))]
      rw [specExtractAmended, ← hbridge]
  have hprimcase : ∀ xs : List Json, (∀ j ∈ xs, j.typeofObject = false) →
      extractFromArray label xs = xs.map jsToString := by
    intro xs hprim
    cases xs with
    | nil => rfl
    | cons d0 rest =>
      rw [extractFromArray,
        if_neg (by rw [hprim d0 (List.mem_cons_self d0 rest)]; simp)]
  have hprimnull : ∀ xs : List Json, (∀ j ∈ xs, j.typeofObject = false) →
      ∀ j ∈ xs, j.isNull = false := by
    intro xs hprim j hj
    have := hprim j hj
    cases j <;> simp_all [Json.typeofObject, Json.isNull]
  refine ⟨?_, ?_, ?_, ?_, ?_, ?_, rfl⟩
  · intro xs hd hobj hnull
    subst hd
    have h1 : extractStageE label (Json.arr xs)
        = .ok (extractFromArray label xs) :=
      extractFromArrayE_of_not_null label xs hnull
    unfold normalizeRemoteE
    rw [h1, hobjcase xs hobj]
  · intro xs hd hprim
    subst hd
    have h1 : extractStageE label (Json.arr xs)
        = .ok (extractFromArray label xs) :=
      extractFromArrayE_of_not_null label xs (hprimnull xs hprim)
    unfold normalizeRemoteE
    rw [h1, hprimcase xs hprim]
  · intro d0 rest hd hobj hnullmem hl
    subst hd
    obtain ⟨msg, hmsg⟩ := mapBuildLabelsE_error label hl (d0 :: rest) hnullmem
    have hEx : extractStageE label (Json.arr (d0 :: rest)) = .error msg := by
      show extractFromArrayE label (d0 :: rest) = .error msg
      rw [extractFromArrayE, if_pos hobj, hmsg]
    have hEn : normalizeRemoteE label (Json.arr (d0 :: rest)) = .error msg := by
      unfold normalizeRemoteE
      rw [hEx]
    refine ⟨msg, hEn, fun s => ?_⟩
    constructor <;> simp [applyFetchSuccessE, hEn]
  · intro fields ys hd hsym
    subst hd
    have h1 : extractStageE label (Json.obj fields)
        = extractFromArrayE label ys := by
      show (match (Json.obj fields).getField "symbols" with
        | some (.arr ys) => extractFromArrayE label ys
        | _ => (.ok [] : Except String (List String)))
        = extractFromArrayE label ys
      rw [hsym]
    constructor
    · intro hobj hnull
      unfold normalizeRemoteE
      rw [h1, extractFromArrayE_of_not_null label ys hnull, hobjcase ys hobj]
    · intro hprim
      unfold normalizeRemoteE
      rw [h1, extractFromArrayE_of_not_null label ys (hprimnull ys hprim),
        hprimcase ys hprim]
  · intro harr hsym
    cases data with
    | arr xs => exact absurd rfl (harr xs)
    | obj fields =>
      show (match (match (Json.obj fields).getField "symbols" with
          | some (.arr ys) => extractFromArrayE label ys
          | _ => (.ok [] : Except String (List String))) with
        | Except.error e => (Except.error e : Except String (List String))
        | Except.ok vals => Except.ok ((dedupFirst vals).insertionSort ciLE))
        = Except.ok []
      rcases hf : (Json.obj fields).getField "symbols" with _ | j
      · rfl
      · cases j with
        | arr ys => exact absurd hf (hsym ys)
        | null => rfl
        | bool b => rfl
        | num n => rfl
        | str s => rfl
        | obj gs => rfl
    | null => rfl
    | bool b => rfl
    | num n => rfl
    | str s => rfl
  · intro vals h
    unfold normalizeRemoteE at h
    cases hw : extractStageE label data with
    | error e =>
      rw [hw] at h
      exact absurd h (by simp)
    | ok w =>
      rw [hw] at h
      simp only [Except.ok.injEq] at h
      subst h
      have hn : normalizeRemoteE label data
          = .ok ((dedupFirst w).insertionSort ciLE) := by
        unfold normalizeRemoteE
        rw [hw]
      refine ⟨((List.perm_insertionSort ciLE _).nodup_iff).mpr
          (nodup_dedupFirst _),
        List.sorted_insertionSort ciLE _, fun s => ?_⟩
      constructor <;> simp [applyFetchSuccessE, hn]

/-- Witness for the amended C4 theorem: the object-array rule on the spec's
ticker example, and the TypeError path on a payload with a null array
element, which commits the failure state. -/
theorem remote_normalize_correct_witness :
    normalizeRemoteE "Tickers"
        (Json.arr [Json.obj [("Symbol", Json.str "AAPL")],
                   Json.obj [("Symbol", Json.str "msft")]])
      = .ok ((dedupFirst (specExtractAmended "Tickers"
          [Json.obj [("Symbol", Json.str "AAPL")],
           Json.obj [("Symbol", Json.str "msft")]])).insertionSort ciLE) ∧
    (∃ msg,
      normalizeRemoteE "Tickers"
          (Json.arr [Json.obj [("Symbol", Json.str "A")], Json.null])
        = .error msg ∧
      ∀ s : OptState,
        (applyFetchSuccessE "Tickers" s
            (Json.arr [Json.obj [("Symbol", Json.str "A")],
              Json.null])).loadError = some msg ∧
        (applyFetchSuccessE "Tickers" s
            (Json.arr [Json.obj [("Symbol", Json.str "A")],
              Json.null])).effectiveOptions = []) :=
  ⟨(remote_normalize_correct "Tickers"
      (Json.arr [Json.obj [("Symbol", Json.str "AAPL")],
                 Json.obj [("Symbol", Json.str "msft")]])).1
      [Json.obj [("Symbol", Json.str "AAPL")],
       Json.obj [("Symbol", Json.str "msft")]] rfl (by decide) (by decide),
   (remote_normalize_correct "Tickers"
      (Json.arr [Json.obj [("Symbol", Json.str "A")], Json.null])).2.2.1
      (Json.obj [("Symbol", Json.str "A")]) [Json.null] rfl (by decide)
      (by decide) (Or.inl rfl)⟩

end SMS
